import Mathlib

/-!
Shallow embedding of the parallel adaptive-subdivision worker pool of
libfive (src/libfive/src/render/brep/worker_pool.cpp), together with
proofs about its progress accounting, scheduling and termination
behaviour.

Cells of the adaptive octree are identified by their index path from the
root; a path stores the most recently taken child index first, so the
parent of cell (i :: p) is cell p and its parent_index is i.

The collaborators of the worker pool that are not part of the sources
under verification (the XTree evaluator, Region geometry, the lock-free
stack and the progress watcher) are modelled from the specification, as
marked in the corresponding doc comments.
-/

/-- Interval classification of a cell, from Interval::State as used by
worker_pool.cpp (UNKNOWN, EMPTY, FILLED, AMBIGUOUS). -/
inductive IType where
  | UNKNOWN : IType
  | EMPTY : IType
  | FILLED : IType
  | AMBIGUOUS : IType
deriving DecidableEq, Repr

/-- A cell of the octree is identified by its index path from the root;
the head of the list is the innermost child index (the parent_index of
the cell), so the root is the empty path. -/
abbrev CellPath : Type := List (Fin 8)

/-- Modelled from the spec (section 3, Region R): an axis-aligned box with
an integer level; the box itself is identified by the index path that
produced it from the root box, since subdivision determines the geometry.
The level is kept separately, mirroring Region::level in the code. -/
structure Region where
  level : Nat
  path : CellPath
deriving DecidableEq, Repr

/-- Modelled from the spec (section 3): subdivide(R) yields eight equal
children indexed by i, each with level = parent level - 1.  Child i of the
box at path p is the box at path (i :: p). -/
def Region.subdivide (r : Region) (i : Fin 8) : Region :=
  { level := r.level - 1, path := i :: r.path }

/-- Modelled from the spec (section 3): parent(R, i) returns the enclosing
region from which child i was derived; its level is one higher and its
path drops the innermost index. -/
def Region.parent (r : Region) (_i : Fin 8) : Region :=
  { level := r.level + 1, path := r.path.tail }

/-- The tick-budget loop of WorkerPool::build (worker_pool.cpp lines
59-62): uint64_t ticks = 0; for (i = 0; i <= level; ++i)
ticks = (ticks+1)*(1 << N).  The accumulator is a uint64_t, so each step
wraps modulo 2^64; the wrap is reachable, since the root level produced by
region.withResolution can exceed 20.  The same loop is re-run at lines
197-200 for a homogeneous cell with its own region level. -/
def buildTicks (N : Nat) (level : Nat) : Nat :=
  (List.range (level + 1)).foldl (fun t _ => ((t + 1) * 2 ^ N) % 2 ^ 64) 0

/-- The recurrence stated by the spec (section 4.4): t_0 = 0 and
t_(i+1) = (t_i + 1) * 2^N.  This definition follows the words of the
specification, to be compared with buildTicks taken from the code. -/
def specTicks (N : Nat) : Nat → Nat
  | 0 => 0
  | i + 1 => (specTicks N i + 1) * 2 ^ N

/-- Modelled from the spec (sections 4.2 and 6, evaluator and tape
contracts; the XTree evaluator and Tape sources are not part of the files
under verification): the deterministic collaborators consumed by the
worker pool.  classify is the classification stored into the cell by
evalInterval; leafKind is the classification resulting from evalLeaf;
narrow is the possibly-narrowed tape returned by evalInterval;
getBase is Tape::getBase; npush is the pure Neighbors::push (its sibling
array argument is determined by the parent cell, which is already encoded
in the path history of the descriptor); nempty is the default Neighbors()
descriptor. -/
structure EvalModel (Tp NB : Type) where
  classify : Region → IType
  leafKind : Region → IType
  narrow : Tp → Region → Tp
  getBase : Tp → Region → Tp
  npush : NB → Fin 8 → NB
  nempty : NB

/-- A pending task, from struct Task of the worker pool: the target cell,
the tape handle and the neighbor descriptor handed down from the parent.
The target cell coincides with region.path, mirroring the redundancy
noted in the code between Task::target and Task::region. -/
structure WTask (Tp NB : Type) where
  region : Region
  tape : Tp
  parent_neighbors : NB
deriving DecidableEq

/-- The pending-children counters of subdivided cells, as an association
list from cell paths to counts.  Modelled from the spec (sections 4.3 and
9): each subdivided parent holds a counter initialised to 8 which is
decremented once per completed child. -/
abbrev CntList : Type := List (CellPath × Nat)

/-- Reads the counter of a cell (first matching entry; 0 when absent). -/
def cntGet (l : CntList) (p : CellPath) : Nat :=
  match l with
  | [] => 0
  | e :: rest => if e.1 = p then e.2 else cntGet rest p

/-- Replaces the counter of a cell (first matching entry; appends when
absent). -/
def cntSet (l : CntList) (p : CellPath) (v : Nat) : CntList :=
  match l with
  | [] => [(p, v)]
  | e :: rest => if e.1 = p then (p, v) :: rest else e :: cntSet rest p v

/-- The number of collection ticks still owed by the counters: one for
each subdivided cell whose counter has not yet reached zero. -/
def owedTicks (l : CntList) : Nat :=
  match l with
  | [] => 0
  | e :: rest => min e.2 1 + owedTicks rest

/-- Modelled from the spec (sections 4.3 and 9): collectChildren is driven
by an atomic pending-children counter starting at 8; the call that drives
the counter of the parent cell to zero performs the collection and
returns true, every other call returns false. -/
def collectChildrenM (cnt : CntList) (t : CellPath) : CntList × Bool :=
  let c := cntGet cnt t
  (cntSet cnt t (c - 1), c = 1)

/-- The global state of the adaptive build shared between the workers:
the pool of pending tasks (the union of the bounded shared stack and the
per-worker local stacks), the pending-children counters, the cell
classifications published so far, the accumulated progress ticks and the
done flag.  Scheduling nondeterminism is expressed by letting a schedule
pick any pending task, which subsumes every stack discipline and thread
interleaving. -/
structure WState (Tp NB : Type) where
  pending : List (WTask Tp NB)
  cnt : CntList
  types : List (CellPath × IType)
  ticks : Nat
  done : Bool
deriving DecidableEq

section Machine

variable {Tp NB : Type}

/-- The neighbor computation at worker_pool.cpp lines 142-147: when the
target cell has a parent, the descriptor handed down by the parent is
pushed through the parent_index; the root keeps the default descriptor. -/
def taskNbrs (E : EvalModel Tp NB) (task : WTask Tp NB) : NB :=
  match task.region.path with
  | [] => E.nempty
  | i :: _ => E.npush task.parent_neighbors i

/-- The bubble-up while loop at worker_pool.cpp lines 218-227, entered at
the non-null cell t whose region and tape have already been updated by
up(): call collectChildren on t; on success emit one tick, apply up()
(move the region to the parent through the parent_index of t, rebase the
tape with Tape::getBase, move t to its parent) and continue; on failure
stop.  Returns the updated counters, the number of ticks emitted, whether
the walk passed the root (t became null) and the final region and tape. -/
def bubbleUp (E : EvalModel Tp NB) (cnt : CntList) :
    CellPath → Region → Tp → CntList × Nat × Bool × Region × Tp
  | [], reg, tp =>
      let r := collectChildrenM cnt []
      if r.2 then
        (r.1, 1, true, reg.parent 0, E.getBase tp (reg.parent 0))
      else
        (r.1, 0, false, reg, tp)
  | i :: p, reg, tp =>
      let r := collectChildrenM cnt (i :: p)
      if r.2 then
        let s := bubbleUp E r.1 p (reg.parent i) (E.getBase tp (reg.parent i))
        (s.1, s.2.1 + 1, s.2.2)
      else
        (r.1, 0, false, reg, tp)

/-- The bubble-up phase at worker_pool.cpp lines 209-234 for a finished
cell q: the initial up() call moves to the parent of q (null when q is the
root, in which case the loop body never runs and the walk has passed the
root), then the while loop of bubbleUp runs. -/
def afterEval (E : EvalModel Tp NB) (cnt : CntList) (q : CellPath)
    (reg : Region) (tp : Tp) : CntList × Nat × Bool × Region × Tp :=
  match q with
  | [] => (cnt, 0, true, reg.parent 0, E.getBase tp (reg.parent 0))
  | i :: p => bubbleUp E cnt p (reg.parent i) (E.getBase tp (reg.parent i))

/-- Folds the result of the bubble-up phase into the machine state: the
collection ticks are reported to the progress watcher and, when the walk
passed the root, the loop breaks and the done flag is stored
(worker_pool.cpp lines 223-225, 231-234 and 239). -/
def applyBubble (E : EvalModel Tp NB) (s : WState Tp NB) (q : CellPath)
    (reg : Region) (tp : Tp) : WState Tp NB :=
  let r := afterEval E s.cnt q reg tp
  { s with cnt := r.1, ticks := s.ticks + r.2.1, done := s.done || r.2.2.1 }

/-- One iteration of the worker loop body on a popped task
(worker_pool.cpp lines 136-234).  If the region level is positive the cell
is interval-evaluated: an AMBIGUOUS cell allocates its eight children and
pushes one task per child carrying the narrowed tape, the subdivided
region and the computed neighbor descriptor, then returns to the top of
the loop; an EMPTY or FILLED cell reports the tick budget of its own level
and bubbles up with the narrowed tape.  A level-0 cell is leaf-evaluated,
reports one tick and bubbles up with the unnarrowed task tape. -/
def stepTask (E : EvalModel Tp NB) (s : WState Tp NB) (task : WTask Tp NB) :
    WState Tp NB :=
  let q := task.region.path
  let neighbors := taskNbrs E task
  if 0 < task.region.level then
    let ty := E.classify task.region
    let tape' := E.narrow task.tape task.region
    if ty = IType.AMBIGUOUS then
      { s with
        pending := ((List.finRange 8).map fun i =>
          { region := task.region.subdivide i, tape := tape',
            parent_neighbors := neighbors }) ++ s.pending,
        cnt := (q, 8) :: s.cnt,
        types := (q, ty) :: s.types }
    else
      applyBubble E
        { s with types := (q, ty) :: s.types,
                 ticks := s.ticks + buildTicks 3 task.region.level }
        q task.region tape'
  else
    applyBubble E
      { s with types := (q, E.leafKind task.region) :: s.types,
               ticks := s.ticks + 1 }
      q task.region task.tape

/-- One scheduling step: the schedule value k picks a pending task (any
index; this covers the local-stack-first discipline of the code and every
interleaving of workers); if no task is available the worker keeps
looping, leaving the state unchanged (worker_pool.cpp lines 115-134). -/
def stepChoice (E : EvalModel Tp NB) (s : WState Tp NB) (k : Nat) :
    WState Tp NB :=
  match s.pending.get? (k % s.pending.length) with
  | none => s
  | some task =>
      stepTask E { s with pending := s.pending.eraseIdx (k % s.pending.length) }
        task

/-- The worker phase of the build, as a fuel-indexed iteration of
scheduling steps guarded by the loop condition of worker_pool.cpp line
110: while not done and not cancelled, pop and process a task. -/
def runSched (E : EvalModel Tp NB) (sched : Nat → Nat) (cancel : Bool) :
    Nat → WState Tp NB → WState Tp NB
  | 0, s => s
  | n + 1, s =>
      if s.done || cancel then s
      else runSched E sched cancel n (stepChoice E s (sched n))

/-- The initial state of the build (worker_pool.cpp lines 44-49): a single
task for the root cell at the resolved root level, carrying the original
tape and the default neighbor descriptor; no ticks, not done. -/
def initState (E : EvalModel Tp NB) (L : Nat) (tape0 : Tp) : WState Tp NB :=
  { pending := [{ region := { level := L, path := [] }, tape := tape0,
                  parent_neighbors := E.nempty }],
    cnt := [], types := [], ticks := 0, done := false }

/-- The return value of WorkerPool::build (worker_pool.cpp lines 87-94):
if the cancel flag is set the function returns an empty Root, otherwise it
returns the populated root; the worker phase itself is the scheduled
machine run. -/
def buildFinal (E : EvalModel Tp NB) (cancel : Bool) (L : Nat) (tape0 : Tp)
    (sched : Nat → Nat) (n : Nat) : Option (WState Tp NB) :=
  if cancel then none
  else some (runSched E sched cancel n (initState E L tape0))

/-- The convenience overload of WorkerPool::build (worker_pool.cpp lines
17-34): it constructs its own cancel flag initialised to false, which is
only ever read by the workers and the progress watcher, and calls the main
overload with it. -/
def buildNoCancel (E : EvalModel Tp NB) (L : Nat) (tape0 : Tp)
    (sched : Nat → Nat) (n : Nat) : Option (WState Tp NB) :=
  buildFinal E false L tape0 sched n

/-- One invocation of WorkerPool::run (worker_pool.cpp lines 98-245) as
seen by a single worker: while the loop condition holds, process a task;
when the bubble-up walk passes the root the loop breaks; in every case the
function stores done = true before returning (line 239).  The fuel bounds
the number of iterations observed; none means the worker was still looping
when the fuel ran out. -/
def runWorker (E : EvalModel Tp NB) (sched : Nat → Nat) (cancel : Bool) :
    Nat → WState Tp NB → Option (WState Tp NB)
  | 0, _ => none
  | n + 1, s =>
      if s.done || cancel then some { s with done := true }
      else
        let s' := stepChoice E s (sched n)
        if s'.done then some { s' with done := true }
        else runWorker E sched cancel n s'

/-- The child-push loop at worker_pool.cpp lines 162-174 against the
bounded shared stack and the local overflow stack: each child is pushed
with tasks.bounded_push, which succeeds exactly when the bounded stack
holds fewer than cap elements (modelled from the spec, section 4.1: a
bounded lock-free stack of fixed capacity); on failure the child goes to
the local stack. -/
def pushAll (cap : Nat) : List α → List α → List α → List α × List α
  | shared, locl, [] => (shared, locl)
  | shared, locl, c :: cs =>
      if shared.length < cap then pushAll cap (c :: shared) locl cs
      else pushAll cap shared (c :: locl) cs

/-- The classification tree denoted by a completed build: the multiset of
(cell path, classification) pairs produced below a cell of the given level
and path.  A level-0 cell is a leaf; an AMBIGUOUS cell at positive level
is recorded and subdivided into eight children; any other classification
makes the cell a homogeneous terminal. -/
def subtreeM (E : EvalModel Tp NB) : Nat → CellPath → Multiset (CellPath × IType)
  | 0, p => {(p, E.leafKind { level := 0, path := p })}
  | l + 1, p =>
      match E.classify { level := l + 1, path := p } with
      | IType.AMBIGUOUS =>
          (p, IType.AMBIGUOUS) ::ₘ
            (((List.finRange 8).map fun i => subtreeM E l (i :: p)).sum)
      | ty => {(p, ty)}

/-- The total number of progress ticks emitted while completing the
subtree below a cell of the given level and path: one per leaf, the tick
budget of its own level for a homogeneous cell, and the ticks of the eight
children plus one collection tick for an AMBIGUOUS cell. -/
def subtreeTicks (E : EvalModel Tp NB) : Nat → CellPath → Nat
  | 0, _ => 1
  | l + 1, p =>
      match E.classify { level := l + 1, path := p } with
      | IType.AMBIGUOUS =>
          (((List.finRange 8).map fun i => subtreeTicks E l (i :: p)).sum) + 1
      | _ => buildTicks 3 (l + 1)

/-- The ticks denoted by one pending task. -/
def taskTicks (E : EvalModel Tp NB) (t : WTask Tp NB) : Nat :=
  subtreeTicks E t.region.level t.region.path

/-- The classification multiset denoted by one pending task. -/
def taskTree (E : EvalModel Tp NB) (t : WTask Tp NB) : Multiset (CellPath × IType) :=
  subtreeM E t.region.level t.region.path

/-- The conserved tick quantity of a state: ticks already emitted, plus
the ticks of the pending subtrees, plus the collection ticks still owed by
the counters. -/
def tickVal (E : EvalModel Tp NB) (s : WState Tp NB) : Nat :=
  s.ticks + (s.pending.map (taskTicks E)).sum + owedTicks s.cnt

/-- The conserved classification quantity of a state: classifications
already published plus the subtrees of the pending tasks. -/
def treeVal (E : EvalModel Tp NB) (s : WState Tp NB) : Multiset (CellPath × IType) :=
  (s.types : Multiset (CellPath × IType)) + (s.pending.map (taskTree E)).sum

/-- The number of consecutive successful collections the bubble-up walk
performs when entered at cell t: cell t fires exactly when its counter
stands at 1, and the walk then continues at the parent of t.  Since the
cells of the parent chain are pairwise distinct, the outcome is determined
by the counters as they stand at entry. -/
def collectRun (cnt : CntList) : CellPath → Nat
  | [] => if cntGet cnt [] = 1 then 1 else 0
  | i :: p => if cntGet cnt (i :: p) = 1 then collectRun cnt p + 1 else 0

/-- The number of successful collections of the bubble-up phase of a
finished cell q: none when q is the root, otherwise the collect run
entered at the parent of q. -/
def collectRunQ (cnt : CntList) (q : CellPath) : Nat :=
  match q with
  | [] => 0
  | _ :: p => collectRun cnt p

/-- Iterates the up() update of worker_pool.cpp lines 212-216 m times
starting at cell q: each application moves the region to the parent
through the parent_index of the current cell (the root uses parent_index
0, with which it was constructed at line 45) and rebases the tape with
Tape::getBase on the parent region. -/
def upIter (E : EvalModel Tp NB) : Nat → CellPath → Region → Tp → Region × Tp
  | 0, _, reg, tp => (reg, tp)
  | m + 1, q, reg, tp =>
      let i : Fin 8 := match q with | j :: _ => j | [] => 0
      let reg' := reg.parent i
      upIter E m q.tail reg' (E.getBase tp reg')

end Machine

/-- A concrete evaluator model over trivial tape and neighbor types, used
to exercise the machine on closed inputs: every interval evaluation is
AMBIGUOUS, every leaf is FILLED, tapes and descriptors are unit values. -/
def evalAmb : EvalModel Unit Unit :=
  { classify := fun _ => IType.AMBIGUOUS,
    leafKind := fun _ => IType.FILLED,
    narrow := fun t _ => t,
    getBase := fun t _ => t,
    npush := fun nb _ => nb,
    nempty := () }

/-- A concrete evaluator model whose interval evaluations are all EMPTY,
so the root cell is homogeneous and never subdivides. -/
def evalEmpty : EvalModel Unit Unit :=
  { classify := fun _ => IType.EMPTY,
    leafKind := fun _ => IType.FILLED,
    narrow := fun t _ => t,
    getBase := fun t _ => t,
    npush := fun nb _ => nb,
    nempty := () }

/-! Theorems.  First the tick-budget recurrence, then the counter and
bubble-up lemmas, then the conservation invariants of the machine, and
finally the claim theorems with their witnesses. -/

theorem specTicks_succ (N i : Nat) :
    specTicks N (i + 1) = (specTicks N i + 1) * 2 ^ N := rfl

/-- The code loop runs once for each i in 0..level with a uint64_t
accumulator, so it computes the recurrence value of index level + 1
reduced modulo 2^64. -/
theorem buildTicks_eq_specTicks_mod (N level : Nat) :
    buildTicks N level = specTicks N (level + 1) % 2 ^ 64 := by
  induction level with
  | zero => rfl
  | succ l ih =>
      have hstep : buildTicks N (l + 1)
          = ((buildTicks N l + 1) * 2 ^ N) % 2 ^ 64 := by
        unfold buildTicks
        rw [List.range_succ (n := l + 1), List.foldl_append]
        rfl
      rw [hstep, ih, specTicks_succ N (l + 1)]
      exact ((Nat.mod_modEq (specTicks N (l + 1)) (2 ^ 64)).add_right 1).mul_right
        (2 ^ N)

/-- Each recurrence step at least increments the value. -/
theorem specTicks_le_succ (N i : Nat) :
    specTicks N i ≤ specTicks N (i + 1) := by
  rw [specTicks_succ]
  have h1 : 1 ≤ 2 ^ N := Nat.one_le_two_pow
  calc specTicks N i ≤ specTicks N i + 1 := Nat.le_succ _
    _ = (specTicks N i + 1) * 1 := (Nat.mul_one _).symm
    _ ≤ (specTicks N i + 1) * 2 ^ N := Nat.mul_le_mul_left _ h1

theorem specTicks_mono (N : Nat) : ∀ i j : Nat, i ≤ j →
    specTicks N i ≤ specTicks N j := by
  intro i j h
  induction j with
  | zero =>
      have : i = 0 := Nat.le_zero.mp h
      rw [this]
  | succ j ihj =>
      rcases Nat.lt_or_ge i (j + 1) with hij | hij
      · exact Nat.le_trans (ihj (Nat.lt_succ_iff.mp hij)) (specTicks_le_succ N j)
      · have : i = j + 1 := Nat.le_antisymm h hij
        rw [this]

/-- Through root level 20 the 3-D recurrence value stays below 2^64. -/
theorem specTicks_lt_two_pow (level : Nat) (h : level ≤ 20) :
    specTicks 3 (level + 1) < 2 ^ 64 := by
  have hm : specTicks 3 (level + 1) ≤ specTicks 3 21 :=
    specTicks_mono 3 (level + 1) 21 (by omega)
  have hb : specTicks 3 21 < 2 ^ 64 := by decide
  omega

/-- Below the wrap point (root level at most 20 in the 3-D case) the
uint64_t loop computes the exact recurrence value. -/
theorem buildTicks_eq_specTicks_of_le (level : Nat) (h : level ≤ 20) :
    buildTicks 3 level = specTicks 3 (level + 1) := by
  rw [buildTicks_eq_specTicks_mod]
  exact Nat.mod_eq_of_lt (specTicks_lt_two_pow level h)

theorem cntGet_cntSet_self (l : CntList) (p : CellPath) (v : Nat) :
    cntGet (cntSet l p v) p = v := by
  induction l with
  | nil => simp [cntGet, cntSet]
  | cons e rest ih =>
      by_cases h : e.1 = p
      · simp [cntGet, cntSet, h]
      · simp [cntGet, cntSet, h, ih]

theorem cntGet_cntSet_ne (l : CntList) (p q : CellPath) (v : Nat)
    (h : q ≠ p) : cntGet (cntSet l p v) q = cntGet l q := by
  induction l with
  | nil => simp [cntGet, cntSet, Ne.symm h]
  | cons e rest ih =>
      by_cases he : e.1 = p
      · simp [cntGet, cntSet, he, Ne.symm h, h]
      · by_cases hq : e.1 = q
        · simp [cntGet, cntSet, he, hq, h]
        · simp [cntGet, cntSet, he, hq, ih]

theorem owedTicks_cntSet (l : CntList) (p : CellPath) (v : Nat) :
    owedTicks (cntSet l p v) + min (cntGet l p) 1 = owedTicks l + min v 1 := by
  induction l with
  | nil => simp [cntSet, owedTicks, cntGet]
  | cons e rest ih =>
      by_cases h : e.1 = p
      · simp [cntSet, owedTicks, cntGet, h]
        omega
      · simp [cntSet, owedTicks, cntGet, h]
        omega

theorem owedTicks_collect (cnt : CntList) (t : CellPath) :
    owedTicks (collectChildrenM cnt t).1 +
      (if (collectChildrenM cnt t).2 then 1 else 0) = owedTicks cnt := by
  have h := owedTicks_cntSet cnt t (cntGet cnt t - 1)
  by_cases hc : cntGet cnt t = 1
  · simp [collectChildrenM, hc] at h ⊢
    omega
  · simp [collectChildrenM, hc] at h ⊢
    omega

theorem bubbleUp_owed {Tp NB : Type} (E : EvalModel Tp NB) (t : CellPath) :
    ∀ (cnt : CntList) (reg : Region) (tp : Tp),
      owedTicks (bubbleUp E cnt t reg tp).1 + (bubbleUp E cnt t reg tp).2.1
        = owedTicks cnt := by
  induction t with
  | nil =>
      intro cnt reg tp
      have h := owedTicks_collect cnt []
      by_cases hb : (collectChildrenM cnt []).2 = true
      · simp [bubbleUp, hb] at h ⊢
        omega
      · simp [bubbleUp, hb] at h ⊢
        omega
  | cons i p ih =>
      intro cnt reg tp
      have h := owedTicks_collect cnt (i :: p)
      by_cases hb : (collectChildrenM cnt (i :: p)).2 = true
      · have h2 := ih (collectChildrenM cnt (i :: p)).1 (reg.parent i)
          (E.getBase tp (reg.parent i))
        simp [bubbleUp, hb] at h ⊢
        omega
      · simp [bubbleUp, hb] at h ⊢
        omega

theorem afterEval_owed {Tp NB : Type} (E : EvalModel Tp NB) (cnt : CntList)
    (q : CellPath) (reg : Region) (tp : Tp) :
    owedTicks (afterEval E cnt q reg tp).1 + (afterEval E cnt q reg tp).2.1
      = owedTicks cnt := by
  match q with
  | [] => simp [afterEval]
  | i :: p => exact bubbleUp_owed E p cnt (reg.parent i) (E.getBase tp (reg.parent i))

theorem collectRun_cntSet_longer (cnt : CntList) (t : CellPath) (v : Nat) :
    ∀ p : CellPath, p.length < t.length →
      collectRun (cntSet cnt t v) p = collectRun cnt p := by
  intro p
  induction p with
  | nil =>
      intro h
      have hne : ([] : CellPath) ≠ t := by
        intro he
        rw [← he] at h
        simp at h
      rw [collectRun, collectRun, cntGet_cntSet_ne cnt t _ v hne]
  | cons i p ih =>
      intro h
      have hne : (i :: p) ≠ t := by
        intro he
        rw [← he] at h
        simp at h
      have hlt : p.length < t.length := by
        simp at h
        omega
      rw [collectRun, collectRun, cntGet_cntSet_ne cnt t _ v hne, ih hlt]

theorem bubbleUp_spec {Tp NB : Type} (E : EvalModel Tp NB) (t : CellPath) :
    ∀ (cnt : CntList) (reg : Region) (tp : Tp),
      (bubbleUp E cnt t reg tp).2.1 = collectRun cnt t ∧
      ((bubbleUp E cnt t reg tp).2.2.1 = true ↔ collectRun cnt t = t.length + 1) ∧
      (bubbleUp E cnt t reg tp).2.2.2 = upIter E (collectRun cnt t) t reg tp := by
  induction t with
  | nil =>
      intro cnt reg tp
      by_cases hc : cntGet cnt [] = 1
      · have hb : (collectChildrenM cnt []).2 = true := by
          simp [collectChildrenM, hc]
        simp [bubbleUp, hb, collectRun, hc, upIter]
      · have hb : ¬ (collectChildrenM cnt []).2 = true := by
          simp [collectChildrenM, hc]
        simp [bubbleUp, hb, collectRun, hc, upIter]
  | cons i p ih =>
      intro cnt reg tp
      by_cases hc : cntGet cnt (i :: p) = 1
      · have hb : (collectChildrenM cnt (i :: p)).2 = true := by
          simp [collectChildrenM, hc]
        have hrun : collectRun (collectChildrenM cnt (i :: p)).1 p
            = collectRun cnt p := by
          simp only [collectChildrenM]
          exact collectRun_cntSet_longer cnt (i :: p) _ p (by simp)
        obtain ⟨h1, h2, h3⟩ := ih (collectChildrenM cnt (i :: p)).1 (reg.parent i)
          (E.getBase tp (reg.parent i))
        rw [hrun] at h1 h2 h3
        refine ⟨?_, ?_, ?_⟩
        · simp [bubbleUp, hb, collectRun, hc, h1]
        · simp only [bubbleUp, hb, if_true, collectRun, hc, if_pos rfl]
          rw [h2]
          simp only [List.length_cons]
          omega
        · simp only [bubbleUp, hb, if_true, collectRun, hc, if_pos rfl, h3]
          rfl
      · have hb : ¬ (collectChildrenM cnt (i :: p)).2 = true := by
          simp [collectChildrenM, hc]
        refine ⟨?_, ?_, ?_⟩
        · simp [bubbleUp, hb, collectRun, hc]
        · simp [bubbleUp, hb, collectRun, hc]
        · simp [bubbleUp, hb, collectRun, hc, upIter]

theorem afterEval_spec {Tp NB : Type} (E : EvalModel Tp NB) (cnt : CntList)
    (q : CellPath) (reg : Region) (tp : Tp) :
    (afterEval E cnt q reg tp).2.1 = collectRunQ cnt q ∧
    ((afterEval E cnt q reg tp).2.2.1 = true ↔ collectRunQ cnt q = q.length) ∧
    (afterEval E cnt q reg tp).2.2.2 = upIter E (collectRunQ cnt q + 1) q reg tp := by
  match q with
  | [] => simp [afterEval, collectRunQ, upIter]
  | i :: p =>
      obtain ⟨h1, h2, h3⟩ := bubbleUp_spec E p cnt (reg.parent i)
        (E.getBase tp (reg.parent i))
      simp only [afterEval, collectRunQ]
      refine ⟨h1, ?_, ?_⟩
      · rw [h2]
        simp
      · rw [h3]
        simp [upIter]

theorem sum_map_eraseIdx {α M : Type} [AddCommMonoid M] (f : α → M) :
    ∀ (l : List α) (j : Nat) (h : j < l.length),
      (l.map f).sum = f (l.get ⟨j, h⟩) + ((l.eraseIdx j).map f).sum := by
  intro l
  induction l with
  | nil => intro j h; simp at h
  | cons a l ih =>
      intro j h
      match j with
      | 0 => simp [List.eraseIdx]
      | j + 1 =>
          have hj : j < l.length := by simpa using h
          simp only [List.map_cons, List.sum_cons, List.eraseIdx, List.get]
          rw [ih j hj, add_left_comm]

theorem subtreeTicks_amb {Tp NB : Type} (E : EvalModel Tp NB) (l : Nat)
    (p : CellPath) (h : E.classify { level := l + 1, path := p } = IType.AMBIGUOUS) :
    subtreeTicks E (l + 1) p
      = (((List.finRange 8).map fun i => subtreeTicks E l (i :: p)).sum) + 1 := by
  rw [subtreeTicks, h]

theorem subtreeTicks_hom {Tp NB : Type} (E : EvalModel Tp NB) (l : Nat)
    (p : CellPath) (h : E.classify { level := l + 1, path := p } ≠ IType.AMBIGUOUS) :
    subtreeTicks E (l + 1) p = buildTicks 3 (l + 1) := by
  rw [subtreeTicks]
  rcases hc : E.classify { level := l + 1, path := p } with _ | _ | _ | _ <;>
    simp_all

theorem subtreeM_amb {Tp NB : Type} (E : EvalModel Tp NB) (l : Nat)
    (p : CellPath) (h : E.classify { level := l + 1, path := p } = IType.AMBIGUOUS) :
    subtreeM E (l + 1) p
      = (p, IType.AMBIGUOUS) ::ₘ
          (((List.finRange 8).map fun i => subtreeM E l (i :: p)).sum) := by
  rw [subtreeM, h]

theorem subtreeM_hom {Tp NB : Type} (E : EvalModel Tp NB) (l : Nat)
    (p : CellPath) (h : E.classify { level := l + 1, path := p } ≠ IType.AMBIGUOUS) :
    subtreeM E (l + 1) p = {(p, E.classify { level := l + 1, path := p })} := by
  rw [subtreeM]
  rcases hc : E.classify { level := l + 1, path := p } with _ | _ | _ | _ <;>
    simp_all

theorem tickVal_applyBubble {Tp NB : Type} (E : EvalModel Tp NB)
    (s : WState Tp NB) (q : CellPath) (reg : Region) (tp : Tp) :
    tickVal E (applyBubble E s q reg tp) = tickVal E s := by
  have h := afterEval_owed E s.cnt q reg tp
  simp only [tickVal, applyBubble]
  omega

theorem treeVal_applyBubble {Tp NB : Type} (E : EvalModel Tp NB)
    (s : WState Tp NB) (q : CellPath) (reg : Region) (tp : Tp) :
    treeVal E (applyBubble E s q reg tp) = treeVal E s := by
  simp [treeVal, applyBubble]

theorem tickVal_stepTask {Tp NB : Type} (E : EvalModel Tp NB)
    (s : WState Tp NB) (task : WTask Tp NB) :
    tickVal E (stepTask E s task) = tickVal E s + taskTicks E task := by
  obtain ⟨⟨lv, q⟩, tpe, nb⟩ := task
  match lv with
  | 0 =>
      rw [stepTask]
      simp only [if_neg (by omega : ¬ 0 < (0 : Nat))]
      rw [tickVal_applyBubble]
      simp only [tickVal, taskTicks, subtreeTicks]
      omega
  | l + 1 =>
      rw [stepTask]
      simp only [if_pos (Nat.succ_pos l)]
      by_cases hcl : E.classify { level := l + 1, path := q } = IType.AMBIGUOUS
      · rw [if_pos hcl]
        simp only [tickVal, taskTicks, owedTicks, List.map_append, List.sum_append,
          List.map_map, Function.comp_def, Region.subdivide, Nat.succ_sub_one]
        rw [subtreeTicks_amb E l q hcl]
        omega
      · rw [if_neg hcl, tickVal_applyBubble]
        simp only [tickVal, taskTicks]
        rw [subtreeTicks_hom E l q hcl]
        omega

theorem treeVal_stepTask {Tp NB : Type} (E : EvalModel Tp NB)
    (s : WState Tp NB) (task : WTask Tp NB) :
    treeVal E (stepTask E s task) = treeVal E s + taskTree E task := by
  obtain ⟨⟨lv, q⟩, tpe, nb⟩ := task
  match lv with
  | 0 =>
      rw [stepTask]
      simp only [if_neg (by omega : ¬ 0 < (0 : Nat))]
      rw [treeVal_applyBubble]
      simp only [treeVal, taskTree, subtreeM, ← Multiset.cons_coe,
        Multiset.cons_add, Multiset.add_cons]
      simp only [← Multiset.singleton_add]
      simp [add_comm, add_left_comm, add_assoc]
  | l + 1 =>
      rw [stepTask]
      simp only [if_pos (Nat.succ_pos l)]
      by_cases hcl : E.classify { level := l + 1, path := q } = IType.AMBIGUOUS
      · rw [if_pos hcl]
        simp only [treeVal, taskTree, List.map_append, List.sum_append,
          List.map_map, Function.comp_def, Region.subdivide, Nat.succ_sub_one]
        rw [subtreeM_amb E l q hcl]
        simp only [hcl, ← Multiset.cons_coe, Multiset.cons_add, Multiset.add_cons]
        simp only [← Multiset.singleton_add]
        simp [add_comm, add_left_comm, add_assoc]
      · rw [if_neg hcl, treeVal_applyBubble]
        simp only [treeVal, taskTree]
        rw [subtreeM_hom E l q hcl]
        simp only [← Multiset.cons_coe, Multiset.cons_add, Multiset.add_cons]
        simp only [← Multiset.singleton_add]
        simp [add_comm, add_left_comm, add_assoc]

theorem tickVal_stepChoice {Tp NB : Type} (E : EvalModel Tp NB)
    (s : WState Tp NB) (k : Nat) :
    tickVal E (stepChoice E s k) = tickVal E s := by
  rw [stepChoice]
  rcases hg : s.pending.get? (k % s.pending.length) with _ | task
  · rfl
  · have hne : s.pending ≠ [] := by
      intro he
      rw [he] at hg
      simp at hg
    have hlt : k % s.pending.length < s.pending.length :=
      Nat.mod_lt _ (List.length_pos.mpr hne)
    have hget : s.pending.get ⟨k % s.pending.length, hlt⟩ = task := by
      rw [List.get?_eq_get hlt] at hg
      exact Option.some.inj hg
    rw [tickVal_stepTask]
    simp only [tickVal]
    have hsum := sum_map_eraseIdx (taskTicks E) s.pending (k % s.pending.length) hlt
    rw [hget] at hsum
    omega

theorem treeVal_stepChoice {Tp NB : Type} (E : EvalModel Tp NB)
    (s : WState Tp NB) (k : Nat) :
    treeVal E (stepChoice E s k) = treeVal E s := by
  rw [stepChoice]
  rcases hg : s.pending.get? (k % s.pending.length) with _ | task
  · rfl
  · have hne : s.pending ≠ [] := by
      intro he
      rw [he] at hg
      simp at hg
    have hlt : k % s.pending.length < s.pending.length :=
      Nat.mod_lt _ (List.length_pos.mpr hne)
    have hget : s.pending.get ⟨k % s.pending.length, hlt⟩ = task := by
      rw [List.get?_eq_get hlt] at hg
      exact Option.some.inj hg
    rw [treeVal_stepTask]
    simp only [treeVal]
    have hsum := sum_map_eraseIdx (taskTree E) s.pending (k % s.pending.length) hlt
    rw [hget] at hsum
    rw [hsum]
    simp [add_comm, add_left_comm, add_assoc]

theorem tickVal_runSched {Tp NB : Type} (E : EvalModel Tp NB)
    (sched : Nat → Nat) (cancel : Bool) :
    ∀ (n : Nat) (s : WState Tp NB),
      tickVal E (runSched E sched cancel n s) = tickVal E s := by
  intro n
  induction n with
  | zero => intro s; rfl
  | succ n ih =>
      intro s
      rw [runSched]
      by_cases h : (s.done || cancel) = true
      · rw [if_pos h]
      · rw [if_neg h, ih, tickVal_stepChoice]

theorem treeVal_runSched {Tp NB : Type} (E : EvalModel Tp NB)
    (sched : Nat → Nat) (cancel : Bool) :
    ∀ (n : Nat) (s : WState Tp NB),
      treeVal E (runSched E sched cancel n s) = treeVal E s := by
  intro n
  induction n with
  | zero => intro s; rfl
  | succ n ih =>
      intro s
      rw [runSched]
      by_cases h : (s.done || cancel) = true
      · rw [if_pos h]
      · rw [if_neg h, ih, treeVal_stepChoice]

theorem tickVal_initState {Tp NB : Type} (E : EvalModel Tp NB) (L : Nat)
    (tape0 : Tp) : tickVal E (initState E L tape0) = subtreeTicks E L [] := by
  simp [tickVal, initState, taskTicks, owedTicks]

theorem treeVal_initState {Tp NB : Type} (E : EvalModel Tp NB) (L : Nat)
    (tape0 : Tp) : treeVal E (initState E L tape0) = subtreeM E L [] := by
  simp [treeVal, initState, taskTree]

/-- On any run that has completed (no task pending and every subdivided
cell collected), the emitted ticks equal the denoted subtree ticks of the
root. -/
theorem ticks_of_completed {Tp NB : Type} (E : EvalModel Tp NB)
    (sched : Nat → Nat) (cancel : Bool) (n L : Nat) (tape0 : Tp)
    (hp : (runSched E sched cancel n (initState E L tape0)).pending = [])
    (ho : owedTicks (runSched E sched cancel n (initState E L tape0)).cnt = 0) :
    (runSched E sched cancel n (initState E L tape0)).ticks
      = subtreeTicks E L [] := by
  have h := tickVal_runSched E sched cancel n (initState E L tape0)
  rw [tickVal_initState] at h
  rw [← h]
  simp [tickVal, hp, ho]

/-- On any run that has drained its pending tasks, the published
classifications are exactly the denoted classification tree of the root. -/
theorem types_of_drained {Tp NB : Type} (E : EvalModel Tp NB)
    (sched : Nat → Nat) (cancel : Bool) (n L : Nat) (tape0 : Tp)
    (hp : (runSched E sched cancel n (initState E L tape0)).pending = []) :
    ((runSched E sched cancel n (initState E L tape0)).types
        : Multiset (CellPath × IType))
      = subtreeM E L [] := by
  have h := treeVal_runSched E sched cancel n (initState E L tape0)
  rw [treeVal_initState] at h
  rw [← h]
  simp [treeVal, hp]

theorem subtreeTicks_le_spec {Tp NB : Type} (E : EvalModel Tp NB) :
    ∀ (l : Nat), l ≤ 20 → ∀ (p : CellPath),
      subtreeTicks E l p ≤ specTicks 3 (l + 1) := by
  intro l
  induction l with
  | zero =>
      intro _ p
      show subtreeTicks E 0 p ≤ specTicks 3 1
      rw [subtreeTicks]
      decide
  | succ l ih =>
      intro hle p
      have hl20 : l ≤ 20 := by omega
      by_cases hcl : E.classify { level := l + 1, path := p } = IType.AMBIGUOUS
      · rw [subtreeTicks_amb E l p hcl]
        have hsum : (((List.finRange 8).map fun i => subtreeTicks E l (i :: p)).sum)
            ≤ 8 * specTicks 3 (l + 1) := by
          have h := List.sum_le_card_nsmul
            ((List.finRange 8).map fun i => subtreeTicks E l (i :: p))
            (specTicks 3 (l + 1)) ?_
          · simpa [smul_eq_mul] using h
          · intro x hx
            obtain ⟨i, _, rfl⟩ := List.mem_map.mp hx
            exact ih hl20 (i :: p)
        have hstep : specTicks 3 (l + 1 + 1) = (specTicks 3 (l + 1) + 1) * 8 :=
          specTicks_succ 3 (l + 1)
        omega
      · rw [subtreeTicks_hom E l p hcl, buildTicks_eq_specTicks_of_le (l + 1) hle]

theorem subtreeTicks_lt_of_amb {Tp NB : Type} (E : EvalModel Tp NB)
    (l : Nat) (p : CellPath) (hle : l + 1 ≤ 20)
    (hcl : E.classify { level := l + 1, path := p } = IType.AMBIGUOUS) :
    subtreeTicks E (l + 1) p < buildTicks 3 (l + 1) := by
  rw [subtreeTicks_amb E l p hcl, buildTicks_eq_specTicks_of_le (l + 1) hle]
  have hsum : (((List.finRange 8).map fun i => subtreeTicks E l (i :: p)).sum)
      ≤ 8 * specTicks 3 (l + 1) := by
    have h := List.sum_le_card_nsmul
      ((List.finRange 8).map fun i => subtreeTicks E l (i :: p))
      (specTicks 3 (l + 1)) ?_
    · simpa [smul_eq_mul] using h
    · intro x hx
      obtain ⟨i, _, rfl⟩ := List.mem_map.mp hx
      exact subtreeTicks_le_spec E l (by omega) (i :: p)
  have hstep : specTicks 3 (l + 1 + 1) = (specTicks 3 (l + 1) + 1) * 8 :=
    specTicks_succ 3 (l + 1)
  omega

/-- Below the wrap point, the denoted root ticks meet the precomputed
budget exactly when the root cell is interval-classified as anything other
than AMBIGUOUS at a positive level; they fall strictly short otherwise. -/
theorem subtreeTicks_root_eq_iff {Tp NB : Type} (E : EvalModel Tp NB)
    (L : Nat) (hle : L ≤ 20) :
    subtreeTicks E L [] = buildTicks 3 L ↔
      (0 < L ∧ E.classify { level := L, path := [] } ≠ IType.AMBIGUOUS) := by
  match L with
  | 0 =>
      constructor
      · intro h
        rw [subtreeTicks] at h
        have : buildTicks 3 0 = 8 := rfl
        omega
      · intro h
        exact absurd h.1 (by omega)
  | l + 1 =>
      constructor
      · intro h
        refine ⟨Nat.succ_pos l, ?_⟩
        intro hcl
        have := subtreeTicks_lt_of_amb E l [] hle hcl
        omega
      · intro h
        exact subtreeTicks_hom E l [] h.2

theorem mem_multiset_list_sum {α : Type} (l : List (Multiset α)) (x : α) :
    x ∈ l.sum ↔ ∃ m ∈ l, x ∈ m := by
  induction l with
  | nil => simp
  | cons m l ih => simp [Multiset.mem_add, ih]

theorem subtreeM_ne_unknown {Tp NB : Type} (E : EvalModel Tp NB)
    (hc : ∀ r : Region, E.classify r ≠ IType.UNKNOWN)
    (hl : ∀ r : Region, E.leafKind r ≠ IType.UNKNOWN) :
    ∀ (l : Nat) (p : CellPath) (x : CellPath × IType),
      x ∈ subtreeM E l p → x.2 ≠ IType.UNKNOWN := by
  intro l
  induction l with
  | zero =>
      intro p x hx
      rw [subtreeM] at hx
      rw [Multiset.mem_singleton] at hx
      rw [hx]
      exact hl _
  | succ l ih =>
      intro p x hx
      by_cases hcl : E.classify { level := l + 1, path := p } = IType.AMBIGUOUS
      · rw [subtreeM_amb E l p hcl, Multiset.mem_cons] at hx
        rcases hx with hx | hx
        · rw [hx]
          simp
        · rw [mem_multiset_list_sum] at hx
          obtain ⟨m, hm, hxm⟩ := hx
          obtain ⟨i, _, rfl⟩ := List.mem_map.mp hm
          exact ih (i :: p) x hxm
      · rw [subtreeM_hom E l p hcl, Multiset.mem_singleton] at hx
        rw [hx]
        exact hc _

theorem applyBubble_ticks {Tp NB : Type} (E : EvalModel Tp NB)
    (s : WState Tp NB) (q : CellPath) (reg : Region) (tp : Tp) :
    (applyBubble E s q reg tp).ticks = s.ticks + collectRunQ s.cnt q := by
  have h := (afterEval_spec E s.cnt q reg tp).1
  simp [applyBubble, h]

theorem applyBubble_done {Tp NB : Type} (E : EvalModel Tp NB)
    (s : WState Tp NB) (q : CellPath) (reg : Region) (tp : Tp) :
    (applyBubble E s q reg tp).done
      = (s.done || decide (collectRunQ s.cnt q = q.length)) := by
  have h := (afterEval_spec E s.cnt q reg tp).2.1
  by_cases hP : collectRunQ s.cnt q = q.length
  · simp [applyBubble, hP, h.mpr hP]
  · have hb : (afterEval E s.cnt q reg tp).2.2.1 = false := by
      cases hbb : (afterEval E s.cnt q reg tp).2.2.1
      · rfl
      · exact absurd (h.mp hbb) hP
    simp [applyBubble, hP, hb]

theorem runSched_of_done {Tp NB : Type} (E : EvalModel Tp NB)
    (sched : Nat → Nat) (cancel : Bool) :
    ∀ (n : Nat) (s : WState Tp NB), s.done = true →
      runSched E sched cancel n s = s := by
  intro n s h
  match n with
  | 0 => rfl
  | m + 1 =>
      have hc : (s.done || cancel) = true := by rw [h]; simp
      rw [runSched, if_pos hc]

theorem runSched_of_cancel {Tp NB : Type} (E : EvalModel Tp NB)
    (sched : Nat → Nat) :
    ∀ (n : Nat) (s : WState Tp NB), runSched E sched true n s = s := by
  intro n s
  match n with
  | 0 => rfl
  | m + 1 =>
      have hc : (s.done || true) = true := by simp
      rw [runSched, if_pos hc]

theorem pushAll_conserves {α : Type} (cap : Nat) :
    ∀ (cs sh lo : List α),
      ((pushAll cap sh lo cs).1 : Multiset α) + ((pushAll cap sh lo cs).2 : Multiset α)
        = (cs : Multiset α) + (sh : Multiset α) + (lo : Multiset α) := by
  intro cs
  induction cs with
  | nil => intro sh lo; simp [pushAll]
  | cons c cs ih =>
      intro sh lo
      rw [pushAll]
      by_cases h : sh.length < cap
      · rw [if_pos h, ih (c :: sh) lo]
        simp only [← Multiset.cons_coe, Multiset.cons_add, Multiset.add_cons]
      · rw [if_neg h, ih sh (c :: lo)]
        simp only [← Multiset.cons_coe, Multiset.cons_add, Multiset.add_cons]

theorem pushAll_capacity {α : Type} (cap : Nat) :
    ∀ (cs sh lo : List α),
      (pushAll cap sh lo cs).1.length ≤ max sh.length cap := by
  intro cs
  induction cs with
  | nil => intro sh lo; simp [pushAll]
  | cons c cs ih =>
      intro sh lo
      rw [pushAll]
      by_cases h : sh.length < cap
      · rw [if_pos h]
        have := ih (c :: sh) lo
        simp only [List.length_cons] at this
        omega
      · rw [if_neg h]
        exact ih sh (c :: lo)

theorem wstate_set_done_eq {Tp NB : Type} (s : WState Tp NB)
    (h : s.done = true) : { s with done := true } = s := by
  obtain ⟨a, b, c, d, e⟩ := s
  simp only at h
  subst h
  rfl

theorem runWorker_done {Tp NB : Type} (E : EvalModel Tp NB)
    (sched : Nat → Nat) (cancel : Bool) :
    ∀ (n : Nat) (s r : WState Tp NB),
      runWorker E sched cancel n s = some r → r.done = true := by
  intro n
  induction n with
  | zero => intro s r h; exact absurd h (by simp [runWorker])
  | succ n ih =>
      intro s r h
      rw [runWorker] at h
      by_cases hg : (s.done || cancel) = true
      · rw [if_pos hg] at h
        have := Option.some.inj h
        rw [← this]
      · rw [if_neg hg] at h
        by_cases hd : (stepChoice E s (sched n)).done = true
        · rw [if_pos hd] at h
          have := Option.some.inj h
          rw [← this]
        · rw [if_neg hd] at h
          exact ih _ r h

theorem stepTask_ticks_leaf {Tp NB : Type} (E : EvalModel Tp NB)
    (s : WState Tp NB) (task : WTask Tp NB) (h : task.region.level = 0) :
    (stepTask E s task).ticks
      = s.ticks + 1 + collectRunQ s.cnt task.region.path := by
  rw [stepTask]
  simp only [h]
  rw [if_neg (by omega : ¬ (0 : Nat) < 0)]
  rw [applyBubble_ticks]

theorem stepTask_ticks_hom {Tp NB : Type} (E : EvalModel Tp NB)
    (s : WState Tp NB) (task : WTask Tp NB) (h : 0 < task.region.level)
    (hcl : E.classify task.region ≠ IType.AMBIGUOUS) :
    (stepTask E s task).ticks
      = s.ticks + buildTicks 3 task.region.level
          + collectRunQ s.cnt task.region.path := by
  rw [stepTask]
  rw [if_pos h, if_neg hcl]
  rw [applyBubble_ticks]

/-- Claim C1 is refuted by this counterexample: a completed, non-cancelled
build whose root region has level 0 (all pending work drained, every
subdivided cell collected, the done flag stored) emits exactly one
progress tick, while the tick budget computed at build start for level 0
is 8; the sum of emitted ticks is therefore not equal to the budget. -/
theorem c1_tick_conservation_counterexample :
    (runSched evalAmb (fun _ => 0) false 1 (initState evalAmb 0 ())).pending = [] ∧
    owedTicks (runSched evalAmb (fun _ => 0) false 1 (initState evalAmb 0 ())).cnt = 0 ∧
    (runSched evalAmb (fun _ => 0) false 1 (initState evalAmb 0 ())).done = true ∧
    (runSched evalAmb (fun _ => 0) false 1 (initState evalAmb 0 ())).ticks = 1 ∧
    buildTicks 3 0 = 8 := by
  decide

/-- Claim C1 (amended): for every non-cancelled build that runs to
completion (no pending task remains and every subdivided cell has been
collected), if the root cell is interval-classified as something other
than AMBIGUOUS at a positive level then the sum of emitted progress ticks
equals the tick budget computed at build start, both being the same
uint64_t loop value; moreover for root levels at most 20, where the
uint64_t budget loop does not wrap, the emitted sum is at most the budget
and meets it exactly in that homogeneous-root case, falling strictly short
whenever the root is a leaf or is subdivided.  Beyond the wrap point the
budget is the wrapped loop value and the emitted sum of a subdivided build
can exceed it. -/
theorem c1_tick_conservation_amended {Tp NB : Type} (E : EvalModel Tp NB)
    (sched : Nat → Nat) (n L : Nat) (tape0 : Tp)
    (hp : (runSched E sched false n (initState E L tape0)).pending = [])
    (ho : owedTicks (runSched E sched false n (initState E L tape0)).cnt = 0) :
    (0 < L → E.classify { level := L, path := [] } ≠ IType.AMBIGUOUS →
      (runSched E sched false n (initState E L tape0)).ticks = buildTicks 3 L) ∧
    (L ≤ 20 →
      (runSched E sched false n (initState E L tape0)).ticks ≤ buildTicks 3 L ∧
      ((runSched E sched false n (initState E L tape0)).ticks = buildTicks 3 L ↔
        0 < L ∧ E.classify { level := L, path := [] } ≠ IType.AMBIGUOUS)) := by
  have h := ticks_of_completed E sched false n L tape0 hp ho
  rw [h]
  constructor
  · intro hL hcl
    cases L with
    | zero => omega
    | succ l => exact subtreeTicks_hom E l [] hcl
  · intro hle
    refine ⟨?_, subtreeTicks_root_eq_iff E L hle⟩
    rw [buildTicks_eq_specTicks_of_le L hle]
    exact subtreeTicks_le_spec E L hle []

/-- Witness for the amended claim C1: a build over a level-1 root that the
evaluator classifies EMPTY completes in one step; the emitted ticks meet
the budget, as both sides of the amended claim predict at level 1. -/
theorem c1_tick_conservation_amended_witness :
    (runSched evalEmpty (fun _ => 0) false 1 (initState evalEmpty 1 ())).pending = [] ∧
    owedTicks (runSched evalEmpty (fun _ => 0) false 1 (initState evalEmpty 1 ())).cnt = 0 ∧
    ((0 < 1 → evalEmpty.classify { level := 1, path := [] } ≠ IType.AMBIGUOUS →
        (runSched evalEmpty (fun _ => 0) false 1 (initState evalEmpty 1 ())).ticks
          = buildTicks 3 1) ∧
      ((1 : Nat) ≤ 20 →
        (runSched evalEmpty (fun _ => 0) false 1 (initState evalEmpty 1 ())).ticks
            ≤ buildTicks 3 1 ∧
        ((runSched evalEmpty (fun _ => 0) false 1 (initState evalEmpty 1 ())).ticks
            = buildTicks 3 1 ↔
          0 < 1 ∧ evalEmpty.classify { level := 1, path := [] } ≠ IType.AMBIGUOUS))) :=
  ⟨by decide, by decide,
    c1_tick_conservation_amended evalEmpty (fun _ => 0) 1 1 () (by decide) (by decide)⟩

/-- Claim C2: for a fixed evaluator (hence fixed expression, region,
minimum feature and error bound), any two runs of the build machine that
drain all pending work produce the same multiset of per-cell
classifications, whatever their schedules; since a schedule subsumes every
choice of worker count and every thread interleaving (each step lets an
arbitrary worker pop an arbitrary pending task), the resulting tree
topology and cell classifications are independent of the number of
workers. -/
theorem c2_schedule_independence {Tp NB : Type} (E : EvalModel Tp NB)
    (sched1 sched2 : Nat → Nat) (n1 n2 L : Nat) (tape0 : Tp)
    (h1 : (runSched E sched1 false n1 (initState E L tape0)).pending = [])
    (h2 : (runSched E sched2 false n2 (initState E L tape0)).pending = []) :
    ((runSched E sched1 false n1 (initState E L tape0)).types
        : Multiset (CellPath × IType))
      = ((runSched E sched2 false n2 (initState E L tape0)).types
        : Multiset (CellPath × IType)) := by
  rw [types_of_drained E sched1 false n1 L tape0 h1,
    types_of_drained E sched2 false n2 L tape0 h2]

/-- Witness for claim C2: two schedules that process the nine cells of a
level-1 ambiguous build in different orders drain the work and agree on
the published classifications as a multiset. -/
theorem c2_schedule_independence_witness :
    (runSched evalAmb (fun _ => 0) false 9 (initState evalAmb 1 ())).pending = [] ∧
    (runSched evalAmb (fun k => k) false 9 (initState evalAmb 1 ())).pending = [] ∧
    ((runSched evalAmb (fun _ => 0) false 9 (initState evalAmb 1 ())).types
        : Multiset (CellPath × IType))
      = ((runSched evalAmb (fun k => k) false 9 (initState evalAmb 1 ())).types
        : Multiset (CellPath × IType)) :=
  ⟨by decide, by decide,
    c2_schedule_independence evalAmb (fun _ => 0) (fun k => k) 9 9 1 ()
      (by decide) (by decide)⟩

/-- Claim C3 is refuted at the wrap point of the uint64_t accumulator: at
root level 21 (reachable through region.withResolution) the budget loop of
WorkerPool::build computes the wrapped value 10540996613548315208, while
the recurrence value of index 22 is 84327972908386521672, so the budget is
not the recurrence value. -/
theorem c3_budget_recurrence_counterexample :
    buildTicks 3 21 = 10540996613548315208 ∧
    specTicks 3 (21 + 1) = 84327972908386521672 ∧
    buildTicks 3 21 ≠ specTicks 3 (21 + 1) := by
  decide

/-- Claim C3 (amended): the total tick budget computed by
WorkerPool::build before spawning workers (the uint64_t loop at
worker_pool.cpp lines 59-62, run on the root level obtained from
region.withResolution) equals the value produced by the recurrence t with
t 0 = 0 and t (i+1) = (t i + 1) * 2^N, with its step applied for every i
from 0 through level (the recurrence value of index level + 1), reduced
modulo 2^64; for every dimension N.  In the 3-D engine the loop does not
wrap for root levels up to 20, where the budget equals the recurrence
value itself. -/
theorem c3_budget_recurrence_amended (N level : Nat) :
    buildTicks N level = specTicks N (level + 1) % 2 ^ 64 ∧
    (level ≤ 20 → buildTicks 3 level = specTicks 3 (level + 1)) :=
  ⟨buildTicks_eq_specTicks_mod N level,
   fun h => buildTicks_eq_specTicks_of_le level h⟩

/-- Witness for the amended claim C3: at level 5 the budget is the exact
recurrence value of index 6. -/
theorem c3_budget_recurrence_amended_witness :
    (5 : Nat) ≤ 20 ∧ buildTicks 3 5 = specTicks 3 (5 + 1) :=
  ⟨by decide, (c3_budget_recurrence_amended 3 5).2 (by decide)⟩

/-- Claim C4: when a task whose region has positive level is classified
AMBIGUOUS, the worker allocates exactly the eight children, pushes one
task per child i carrying the narrowed tape returned by evalInterval, the
i-th subdivided region and the computed neighbor descriptor, installs the
pending-children counter of the parent, records the classification, and
returns to the top of the loop with no progress tick emitted, no
collection attempted and the done flag untouched; moreover the child-push
loop places every child either on the bounded shared stack or, exactly
when the bounded push fails for lack of room, on the local stack: no child
is lost and the shared stack never grows beyond its capacity. -/
theorem c4_ambiguous_subdivision {Tp NB : Type} (E : EvalModel Tp NB)
    (s : WState Tp NB) (task : WTask Tp NB)
    (hl : 0 < task.region.level)
    (ha : E.classify task.region = IType.AMBIGUOUS) :
    stepTask E s task = { s with
      pending := ((List.finRange 8).map fun i =>
        { region := task.region.subdivide i,
          tape := E.narrow task.tape task.region,
          parent_neighbors := taskNbrs E task }) ++ s.pending,
      cnt := (task.region.path, 8) :: s.cnt,
      types := (task.region.path, IType.AMBIGUOUS) :: s.types } ∧
    (∀ (cap : Nat) (sh lo cs : List (WTask Tp NB)),
      ((pushAll cap sh lo cs).1 : Multiset (WTask Tp NB))
          + ((pushAll cap sh lo cs).2 : Multiset (WTask Tp NB))
        = (cs : Multiset (WTask Tp NB)) + (sh : Multiset (WTask Tp NB))
            + (lo : Multiset (WTask Tp NB))) ∧
    (∀ (cap : Nat) (sh lo cs : List (WTask Tp NB)),
      (pushAll cap sh lo cs).1.length ≤ max sh.length cap) := by
  refine ⟨?_, fun cap sh lo cs => pushAll_conserves cap cs sh lo,
    fun cap sh lo cs => pushAll_capacity cap cs sh lo⟩
  rw [stepTask]
  simp only [if_pos hl]
  rw [if_pos ha, ha]

/-- Witness for claim C4: a concrete ambiguous level-1 task produces
exactly the eight child tasks and the stated state change. -/
theorem c4_ambiguous_subdivision_witness :
    0 < ((⟨⟨1, []⟩, (), ()⟩ : WTask Unit Unit)).region.level ∧
    evalAmb.classify ((⟨⟨1, []⟩, (), ()⟩ : WTask Unit Unit)).region
      = IType.AMBIGUOUS ∧
    (stepTask evalAmb (initState evalAmb 1 ()) (⟨⟨1, []⟩, (), ()⟩ : WTask Unit Unit)
      = { initState evalAmb 1 () with
          pending := ((List.finRange 8).map fun i =>
            (⟨Region.subdivide ⟨1, []⟩ i, evalAmb.narrow () ⟨1, []⟩,
              taskNbrs evalAmb (⟨⟨1, []⟩, (), ()⟩ : WTask Unit Unit)⟩
              : WTask Unit Unit)) ++ (initState evalAmb 1 ()).pending,
          cnt := (([] : CellPath), 8) :: (initState evalAmb 1 ()).cnt,
          types := (([] : CellPath), IType.AMBIGUOUS)
            :: (initState evalAmb 1 ()).types }) :=
  ⟨by decide, by decide,
    (c4_ambiguous_subdivision evalAmb (initState evalAmb 1 ())
      (⟨⟨1, []⟩, (), ()⟩ : WTask Unit Unit) (by decide) (by decide)).1⟩

/-- Claim C5 is refuted at the wrap point of the uint64_t accumulator: a
cell classified EMPTY at level 21 makes the worker emit the wrapped loop
value 10540996613548315208 of its own level, which is not the recurrence
value 84327972908386521672 of that level. -/
theorem c5_eval_tick_amounts_counterexample :
    (stepTask evalEmpty (initState evalEmpty 21 ())
        (⟨⟨21, []⟩, (), ()⟩ : WTask Unit Unit)).ticks = buildTicks 3 21 ∧
    buildTicks 3 21 ≠ specTicks 3 (21 + 1) := by
  decide

/-- Claim C5 (amended): a leaf task (region level 0) makes the worker emit
exactly one progress tick for the evaluation itself (any further ticks of
that iteration coming only from the bubble-up collections), and a task at
positive level classified EMPTY or FILLED makes it emit exactly the
uint64_t tick-budget loop value of its own region level, which equals the
recurrence t (i+1) = (t i + 1) * 2^N applied through the own level of the
cell reduced modulo 2^64, and equals the recurrence value itself whenever
the own level is at most 20 (below the wrap point). -/
theorem c5_eval_tick_amounts_amended {Tp NB : Type} (E : EvalModel Tp NB)
    (s : WState Tp NB) (task : WTask Tp NB) :
    (task.region.level = 0 →
      (stepTask E s task).ticks
        = s.ticks + 1 + collectRunQ s.cnt task.region.path) ∧
    (0 < task.region.level → E.classify task.region ≠ IType.AMBIGUOUS →
      (stepTask E s task).ticks
        = s.ticks + buildTicks 3 task.region.level
            + collectRunQ s.cnt task.region.path ∧
      buildTicks 3 task.region.level
        = specTicks 3 (task.region.level + 1) % 2 ^ 64 ∧
      (task.region.level ≤ 20 →
        buildTicks 3 task.region.level = specTicks 3 (task.region.level + 1))) :=
  ⟨fun h => stepTask_ticks_leaf E s task h,
   fun h hcl => ⟨stepTask_ticks_hom E s task h hcl,
     buildTicks_eq_specTicks_mod 3 task.region.level,
     fun hle => buildTicks_eq_specTicks_of_le task.region.level hle⟩⟩

/-- Witness for the amended claim C5: a concrete leaf task emits one tick
and a concrete EMPTY level-2 task emits the budget of level 2, equal to
the recurrence value of index 3. -/
theorem c5_eval_tick_amounts_amended_witness :
    ((stepTask evalAmb (initState evalAmb 0 ())
        (⟨⟨0, []⟩, (), ()⟩ : WTask Unit Unit)).ticks
      = (initState evalAmb 0 ()).ticks + 1
          + collectRunQ (initState evalAmb 0 ()).cnt
              ((⟨⟨0, []⟩, (), ()⟩ : WTask Unit Unit)).region.path) ∧
    ((stepTask evalEmpty (initState evalEmpty 2 ())
        (⟨⟨2, []⟩, (), ()⟩ : WTask Unit Unit)).ticks
      = (initState evalEmpty 2 ()).ticks + buildTicks 3 2
          + collectRunQ (initState evalEmpty 2 ()).cnt
              ((⟨⟨2, []⟩, (), ()⟩ : WTask Unit Unit)).region.path ∧
      buildTicks 3 2 = specTicks 3 (2 + 1) % 2 ^ 64 ∧
      ((2 : Nat) ≤ 20 → buildTicks 3 2 = specTicks 3 (2 + 1))) :=
  ⟨(c5_eval_tick_amounts_amended evalAmb (initState evalAmb 0 ())
      (⟨⟨0, []⟩, (), ()⟩ : WTask Unit Unit)).1 rfl,
   (c5_eval_tick_amounts_amended evalEmpty (initState evalEmpty 2 ())
      (⟨⟨2, []⟩, (), ()⟩ : WTask Unit Unit)).2 (by decide) (by decide)⟩

/-- Claim C6: the bubble-up phase of a finished cell q walks upward with
one up() application before each test, replacing the region by its parent
through the parent_index and the tape by Tape.getBase on that parent
region; while the current cell is non-null and its collectChildren call
succeeds it emits exactly one progress tick per successful collection and
walks up again; the walk passes the root exactly when every ancestor up to
and including the root collects, in which case (and only then, apart from
a done flag that was already set) the done flag is stored and the worker
loop exits without consuming further tasks. -/
theorem c6_bubble_walk {Tp NB : Type} (E : EvalModel Tp NB)
    (s : WState Tp NB) (q : CellPath) (reg : Region) (tp : Tp) :
    (afterEval E s.cnt q reg tp).2.1 = collectRunQ s.cnt q ∧
    ((afterEval E s.cnt q reg tp).2.2.1 = true ↔ collectRunQ s.cnt q = q.length) ∧
    (afterEval E s.cnt q reg tp).2.2.2
      = upIter E (collectRunQ s.cnt q + 1) q reg tp ∧
    (applyBubble E s q reg tp).ticks = s.ticks + collectRunQ s.cnt q ∧
    (applyBubble E s q reg tp).done
      = (s.done || decide (collectRunQ s.cnt q = q.length)) ∧
    (∀ (sched : Nat → Nat) (cancel : Bool) (n : Nat) (s' : WState Tp NB),
      s'.done = true → runSched E sched cancel n s' = s') := by
  obtain ⟨h1, h2, h3⟩ := afterEval_spec E s.cnt q reg tp
  exact ⟨h1, h2, h3, applyBubble_ticks E s q reg tp,
    applyBubble_done E s q reg tp,
    fun sched cancel n s' h => runSched_of_done E sched cancel n s' h⟩

/-- Witness for claim C6: instantiating the walk at a concrete state and
cell, and the loop-exit clause at a concrete state whose done flag is
set. -/
theorem c6_bubble_walk_witness :
    (afterEval evalAmb (initState evalAmb 0 ()).cnt [] ⟨0, []⟩ ()).2.1
      = collectRunQ (initState evalAmb 0 ()).cnt [] ∧
    runSched evalAmb (fun _ => 0) false 3
        (⟨[], [], [], 0, true⟩ : WState Unit Unit)
      = (⟨[], [], [], 0, true⟩ : WState Unit Unit) :=
  ⟨(c6_bubble_walk evalAmb (initState evalAmb 0 ()) [] ⟨0, []⟩ ()).1,
   (c6_bubble_walk evalAmb (initState evalAmb 0 ()) [] ⟨0, []⟩
      ()).2.2.2.2.2 (fun _ => 0) false 3 _ (by decide)⟩

/-- Claim C7: build returns the empty Root exactly when the cancel flag is
set; when cancel is observed every worker exits at the top of its loop
without starting a new task (the machine is left unchanged by any amount
of fuel), and when cancel was never set the build returns the populated
root, whose published classifications on a drained run form exactly the
denoted classification tree of the root. -/
theorem c7_empty_root_iff_cancel {Tp NB : Type} (E : EvalModel Tp NB)
    (cancel : Bool) (L n : Nat) (tape0 : Tp) (sched : Nat → Nat) :
    (buildFinal E cancel L tape0 sched n = none ↔ cancel = true) ∧
    (∀ (m : Nat) (s : WState Tp NB), runSched E sched true m s = s) ∧
    (cancel = false →
      (runSched E sched false n (initState E L tape0)).pending = [] →
      ((runSched E sched false n (initState E L tape0)).types
          : Multiset (CellPath × IType)) = subtreeM E L []) := by
  refine ⟨?_, fun m s => runSched_of_cancel E sched m s,
    fun _ hp => types_of_drained E sched false n L tape0 hp⟩
  cases cancel <;> simp [buildFinal]

/-- Witness for claim C7: with the flag set the result is the empty Root;
with the flag clear, a drained concrete run publishes the full tree. -/
theorem c7_empty_root_iff_cancel_witness :
    (buildFinal evalAmb true 1 () (fun _ => 0) 9 = none ↔ true = true) ∧
    ((runSched evalAmb (fun _ => 0) false 9 (initState evalAmb 1 ())).types
        : Multiset (CellPath × IType)) = subtreeM evalAmb 1 [] :=
  ⟨(c7_empty_root_iff_cancel evalAmb true 1 9 () (fun _ => 0)).1,
   (c7_empty_root_iff_cancel evalAmb false 1 9 () (fun _ => 0)).2.2 rfl
     (by decide)⟩

/-- Claim C8: under the evaluator contract that interval evaluation never
leaves a cell UNKNOWN (the post-condition of evalInterval asserted at
worker_pool.cpp line 159) and leaf evaluation never produces UNKNOWN,
every classification published by a drained, non-cancelled build is one of
EMPTY, FILLED or AMBIGUOUS. -/
theorem c8_no_unknown_in_tree {Tp NB : Type} (E : EvalModel Tp NB)
    (sched : Nat → Nat) (n L : Nat) (tape0 : Tp)
    (hc : ∀ r : Region, E.classify r ≠ IType.UNKNOWN)
    (hl : ∀ r : Region, E.leafKind r ≠ IType.UNKNOWN)
    (hp : (runSched E sched false n (initState E L tape0)).pending = []) :
    ∀ x ∈ (runSched E sched false n (initState E L tape0)).types,
      x.2 ≠ IType.UNKNOWN := by
  intro x hx
  have ht := types_of_drained E sched false n L tape0 hp
  have hm : x ∈ ((runSched E sched false n (initState E L tape0)).types
      : Multiset (CellPath × IType)) := Multiset.mem_coe.mpr hx
  rw [ht] at hm
  exact subtreeM_ne_unknown E hc hl L [] x hm

/-- Witness for claim C8: the concrete drained build over the ambiguous
evaluator publishes no UNKNOWN classification. -/
theorem c8_no_unknown_in_tree_witness :
    (∀ r : Region, evalAmb.classify r ≠ IType.UNKNOWN) ∧
    (∀ x ∈ (runSched evalAmb (fun _ => 0) false 9 (initState evalAmb 1 ())).types,
      x.2 ≠ IType.UNKNOWN) :=
  ⟨fun r => by simp [evalAmb],
   c8_no_unknown_in_tree evalAmb (fun _ => 0) 9 1 ()
     (fun r => by simp [evalAmb]) (fun r => by simp [evalAmb]) (by decide)⟩

/-- Claim C9: whenever an invocation of the worker loop returns within its
fuel, the returned state has the done flag stored, regardless of why the
loop exited; consequently any other worker running from that state finds
its loop condition false and returns immediately with the same state. -/
theorem c9_run_stores_done {Tp NB : Type} (E : EvalModel Tp NB)
    (sched : Nat → Nat) (cancel : Bool) (n : Nat) (s r : WState Tp NB)
    (h : runWorker E sched cancel n s = some r) :
    r.done = true ∧
    ∀ (sched2 : Nat → Nat) (m : Nat),
      runWorker E sched2 cancel (m + 1) r = some r := by
  have hd := runWorker_done E sched cancel n s r h
  refine ⟨hd, fun sched2 m => ?_⟩
  rw [runWorker]
  have hc : (r.done || cancel) = true := by rw [hd]; simp
  rw [if_pos hc, wstate_set_done_eq r hd]

/-- Witness for claim C9: a concrete worker invocation that finishes a
level-0 build returns a state with done stored. -/
theorem c9_run_stores_done_witness :
    runWorker evalAmb (fun _ => 0) false 2 (initState evalAmb 0 ())
      = some (⟨[], [], [([], IType.FILLED)], 1, true⟩ : WState Unit Unit) ∧
    (⟨[], [], [([], IType.FILLED)], 1, true⟩ : WState Unit Unit).done = true :=
  ⟨by decide,
   (c9_run_stores_done evalAmb (fun _ => 0) false 2 (initState evalAmb 0 ())
     (⟨[], [], [([], IType.FILLED)], 1, true⟩ : WState Unit Unit) (by decide)).1⟩

/-- Claim C10: the convenience overload of build constructs its own cancel
flag initialised to false, which nothing ever sets, so it always takes the
non-cancelled path: its result is exactly the populated root of the worker
phase and is never the empty Root. -/
theorem c10_overload_never_empty {Tp NB : Type} (E : EvalModel Tp NB)
    (L n : Nat) (tape0 : Tp) (sched : Nat → Nat) :
    buildNoCancel E L tape0 sched n
      = some (runSched E sched false n (initState E L tape0)) ∧
    (buildNoCancel E L tape0 sched n).isSome = true := by
  constructor
  · rfl
  · simp [buildNoCancel, buildFinal]
